import Mathlib

/-!
Verification of the core game logic of `src/main.ts` (a browser map game with
procedurally spawned coin caches).

Shallow embedding conventions:
* JavaScript numbers are modelled as rationals (`ℚ`); every arithmetic
  operation the embedded code performs on them (add, multiply, divide by the
  tile size, `Math.floor`, `Math.round`) is exact on the values the program
  actually manipulates.
* The sine-based pseudo-random generator (`seededRandom`/`nextRandom`) is
  modelled in two layers: a real-valued definition `seededRandom` mirroring
  the formula `x = sin(seed)*10000; x - floor(x)` for the numerical claims,
  and an abstract draw function `rand : ℕ → ℚ` (the value returned for each
  counter position) over which the state-level theorems quantify, since the
  exact float values of `Math.sin` are not part of any structural claim.
* `JSON.stringify`/`JSON.parse` round-trip faithfully on the value shapes the
  program produces, so serialized data is modelled as structured `Json`
  values rather than character strings; only the string *keys* of the
  `cacheStates` record (built with template literals) are modelled as actual
  strings.
* The mutable globals (`seedValue`, `cacheStates`) and the `PlayerManager`
  fields are gathered into one `GameState` record, threaded explicitly.
-/

/-- `TILE_DEGREES = 1e-4` from `main.ts`. -/
def TILE_DEGREES : ℚ := 1 / 10000

/-- `NEIGHBORHOOD_SIZE = 5` from `main.ts`. -/
def NEIGHBORHOOD_SIZE : ℤ := 5

/-- `CACHE_SPAWN_PROBABILITY = 0.05` from `main.ts`. -/
def CACHE_SPAWN_PROBABILITY : ℚ := 5 / 100

/-- Latitude of `OAKES_CLASSROOM` (36.98949379578401). -/
def oakesLat : ℚ := 3698949379578401 / 100000000000000

/-- Longitude of `OAKES_CLASSROOM` (-122.06277128548504). -/
def oakesLng : ℚ := -12206277128548504 / 100000000000000

/-- JSON values, restricted to the shapes the program serializes
(numbers, strings, arrays, objects). -/
inductive Json : Type where
  | jnum : ℚ → Json
  | jstr : String → Json
  | jarr : List Json → Json
  | jobj : List (String × Json) → Json

/-- Field access `parsed.f` on a parsed JSON object (`none` models the
JavaScript `undefined` for a missing field or a non-object receiver). -/
def Json.getField : Json → String → Option Json
  | Json.jobj fields, name => fields.lookup name
  | _, _ => none

/-- Read a JSON value as a number. -/
def Json.asNum : Json → Option ℚ
  | Json.jnum q => some q
  | _ => none

/-- Read a JSON value as a string. -/
def Json.asStr : Json → Option String
  | Json.jstr s => some s
  | _ => none

/-- Read a JSON value as an array of strings. -/
def Json.asStrList : Json → Option (List String)
  | Json.jarr l => l.mapM Json.asStr
  | _ => none

/-- The `CacheCell` class of `main.ts`: grid indices `i`, `j` and the ordered
list of coin identifiers resident in the cache. -/
structure CacheCell : Type where
  i : ℚ
  j : ℚ
  coinIds : List String
deriving DecidableEq, Repr

/-- `createCacheState(cell, remainingCoinIds)` /
`CacheCell.toMemento`: the JSON object `{i, j, coinIds}` (the program
stores its `JSON.stringify`; we keep the structured value). -/
def createCacheState (i j : ℚ) (coinIds : List String) : Json :=
  Json.jobj [("i", Json.jnum i), ("j", Json.jnum j),
    ("coinIds", Json.jarr (coinIds.map Json.jstr))]

/-- `CacheCell.toMemento()`. -/
def CacheCell.toMemento (cell : CacheCell) : Json :=
  createCacheState cell.i cell.j cell.coinIds

/-- `CacheCell.fromMemento(memento)`: parse the memento and populate `i`,
`j`, `coinIds`.  The JavaScript method assigns the parsed fields
unconditionally; `none` models the (never program-produced) case of a
memento missing one of the fields, where the JS cell would hold
`undefined` fields unusable by every caller. -/
def CacheCell.fromMemento (m : Json) : Option CacheCell := do
  let i ← (m.getField "i").bind Json.asNum
  let j ← (m.getField "j").bind Json.asNum
  let coinIds ← (m.getField "coinIds").bind Json.asStrList
  pure ⟨i, j, coinIds⟩

/-- Rendering of a JavaScript number inside a template literal.  The program
only ever builds keys and coin ids from integral coordinates (movement is by
integer deltas); on integers this agrees with JavaScript, and the
non-integral branch keeps the function total and injective. -/
def numToString (q : ℚ) : String :=
  if q.den = 1 then q.num.repr else q.num.repr ++ "/" ++ q.den.repr

/-- The key `` `${i},${j}` `` of the `cacheStates` record. -/
def cacheKey (i j : ℚ) : String :=
  numToString i ++ "," ++ numToString j

/-- The coin identifier `` `${newRow}:${newCol} serial# ${index}` ``. -/
def coinId (i j : ℚ) (idx : ℕ) : String :=
  numToString i ++ ":" ++ numToString j ++ " serial# " ++ Nat.repr idx

/-- The coin-id list `Array.from({length: n}, (_, index) => ...)`. -/
def mintCoinIds (i j : ℚ) (n : ℕ) : List String :=
  (List.range n).map (coinId i j)

/-- Lookup `cacheStates[key]` in the insertion-ordered record. -/
def lookupEntry : List (String × Json) → String → Option Json
  | [], _ => none
  | (k, v) :: t, key => if k = key then some v else lookupEntry t key

/-- Assignment `cacheStates[key] = v`: replace the existing entry in place,
or append a new one (JavaScript object key order). -/
def setEntry : List (String × Json) → String → Json → List (String × Json)
  | [], key, v => [(key, v)]
  | (k, w) :: t, key, v =>
     if k = key then (key, v) :: t else (k, w) :: setEntry t key v

/-- The whole mutable state of the program: the RNG counter `seedValue`, the
`cacheStates` record, and the `PlayerManager` fields (`row`, `col`,
`movementPath`, `coins`). -/
structure GameState : Type where
  seedValue : ℕ
  row : ℚ
  col : ℚ
  movementPath : List (ℚ × ℚ)
  coins : List String
  cacheStates : List (String × Json)

/-- `Math.round(OAKES_CLASSROOM.lat / TILE_DEGREES)` (JS `Math.round` is
`⌊x + 1/2⌋`, which is Mathlib's `round`). -/
def initialRow : ℚ := (round (oakesLat / TILE_DEGREES) : ℤ)

/-- `Math.round(OAKES_CLASSROOM.lng / TILE_DEGREES)`. -/
def initialCol : ℚ := (round (oakesLng / TILE_DEGREES) : ℤ)

/-- The state right after module initialization: `seedValue = 1234`, the
player at the classroom grid cell with the raw classroom coordinates as the
single movement-path entry, no coins, no cache states. -/
def initialState : GameState :=
  { seedValue := 1234
    row := initialRow
    col := initialCol
    movementPath := [(oakesLat, oakesLng)]
    coins := []
    cacheStates := [] }

/-- `getCurrentLatLng()`: `[row * TILE_DEGREES, col * TILE_DEGREES]`. -/
def getCurrentLatLng (s : GameState) : ℚ × ℚ :=
  (s.row * TILE_DEGREES, s.col * TILE_DEGREES)

/-- `updatePosition(deltaRow, deltaCol)`: shift the grid position and push
the new `getCurrentLatLng()` onto the movement path. -/
def updatePosition (s : GameState) (deltaRow deltaCol : ℚ) : GameState :=
  let s' := { s with row := s.row + deltaRow, col := s.col + deltaCol }
  { s' with movementPath := s'.movementPath ++ [getCurrentLatLng s'] }

/-- The per-cell branch of `updateMapView` (the spec's `getOrCreate`):
if `cacheStates[cacheKey]` exists, decode it into a fresh `CacheCell`;
otherwise draw `nextRandom()` and, when it is below the spawn probability,
draw a coin count `Math.floor(nextRandom() * 10 + 1)`, mint the coin ids,
record the new cell's memento, and return the cell.  `rand n` is the value
`seededRandom(n)` returned when the counter reaches `n`. -/
def visitCell (rand : ℕ → ℚ) (s : GameState) (r c : ℚ) :
    GameState × Option CacheCell :=
  let key := cacheKey r c
  match lookupEntry s.cacheStates key with
  | some m => (s, CacheCell.fromMemento m)
  | none =>
    let v := rand (s.seedValue + 1)
    let s1 := { s with seedValue := s.seedValue + 1 }
    if v < CACHE_SPAWN_PROBABILITY then
      let v2 := rand (s1.seedValue + 1)
      let s2 := { s1 with seedValue := s1.seedValue + 1 }
      let cell : CacheCell := ⟨r, c, mintCoinIds r c (⌊v2 * 10 + 1⌋).toNat⟩
      ({ s2 with cacheStates := setEntry s2.cacheStates key cell.toMemento },
       some cell)
    else (s1, none)

/-- The row-major offsets `-NEIGHBORHOOD_SIZE .. NEIGHBORHOOD_SIZE`. -/
def offsetList : List ℤ :=
  (List.range 11).map (fun k => (k : ℤ) - NEIGHBORHOOD_SIZE)

/-- `updateMapView()`: visit every cell of the 11×11 neighborhood around the
player's current grid position, in row-major order. -/
def updateMapView (rand : ℕ → ℚ) (s : GameState) : GameState :=
  offsetList.foldl
    (fun s1 rowOffset =>
      offsetList.foldl
        (fun s2 colOffset =>
          (visitCell rand s2 (s2.row + rowOffset) (s2.col + colOffset)).1)
        s1)
    s

/-- `movePlayer(deltaX, deltaY)`: note the code calls
`updatePosition(deltaY, deltaX)` with the arguments swapped, then refreshes
the map view (and saves; persistence is outside `GameState`). -/
def movePlayer (rand : ℕ → ℚ) (s : GameState) (deltaX deltaY : ℚ) :
    GameState :=
  updateMapView rand (updatePosition s deltaY deltaX)

/-- `resetGameState()` after the user confirms: reset the player to the
starting cell with the single raw-classroom path entry and no coins, clear
`cacheStates`, then run `updateMapView()` (which repopulates from the
current `seedValue` — the counter itself is not reset). -/
def resetGameState (rand : ℕ → ℚ) (s : GameState) : GameState :=
  updateMapView rand
    { s with
      row := initialRow
      col := initialCol
      movementPath := [(oakesLat, oakesLng)]
      coins := []
      cacheStates := [] }


/-- The parsed `gameData` JSON object.  `load` reads the fields
optionally (`parsedData.coins?`, `parsedData.movementPath?`,
`parsedData.cacheStates || {}`); `row` and `col` are written by
`saveGameData` but never read back. -/
structure SnapshotJson : Type where
  row : Option ℚ
  col : Option ℚ
  coins : Option (List String)
  cacheStates : Option (List (String × Json))
  movementPath : Option (List (ℚ × ℚ))

/-- `saveGameData()`: the snapshot `{row, col, coins, cacheStates,
movementPath}` written to local storage. -/
def saveGameData (s : GameState) : SnapshotJson :=
  { row := some s.row
    col := some s.col
    coins := some s.coins
    cacheStates := some s.cacheStates
    movementPath := some s.movementPath }

/-- One step of the movement-path replay in the load block:
`playerManager.updatePosition(latLng[0]/TILE_DEGREES - row,
latLng[1]/TILE_DEGREES - col)`. -/
def replayStep (st : GameState) (latLng : ℚ × ℚ) : GameState :=
  updatePosition st (latLng.1 / TILE_DEGREES - st.row)
    (latLng.2 / TILE_DEGREES - st.col)

/-- The startup load block: `none` models absent or unparsable saved data
(`JSON.parse` throwing before any state is mutated), in which case the
state is left as it is.  Otherwise: clear the coins and re-add the saved
ones, replay the saved movement path through `updatePosition` with deltas
`latLng/TILE_DEGREES - current`, and replace `cacheStates` (missing field
falls back to `{}`). -/
def loadGameData (osnap : Option SnapshotJson) (s : GameState) : GameState :=
  match osnap with
  | none => s
  | some snap =>
    let s1 := { s with coins := snap.coins.getD [] }
    let s2 := (snap.movementPath.getD []).foldl replayStep s1
    { s2 with cacheStates := snap.cacheStates.getD [] }

/-- The coin list recorded in a stored memento (the list the popup code
reads through `fromMemento` into `remainingCoinIds`). -/
def mementoCoinIds (m : Json) : List String :=
  ((CacheCell.fromMemento m).map CacheCell.coinIds).getD []

/-- The "Collect" button handler for the coin at position `idx` of the cache
at cell `(i, j)`: push that coin onto the player's coins, remove it from the
cache list, and store the updated memento under `` `${cell.i},${cell.j}` ``
(the *decoded* cell indices). -/
def collectCoin (s : GameState) (i j : ℚ) (idx : ℕ) : GameState :=
  match (lookupEntry s.cacheStates (cacheKey i j)).bind CacheCell.fromMemento
    with
  | none => s
  | some cell =>
    if h : idx < cell.coinIds.length then
      { s with
        coins := s.coins ++ [cell.coinIds.get ⟨idx, h⟩]
        cacheStates := setEntry s.cacheStates (cacheKey cell.i cell.j)
          (createCacheState cell.i cell.j (cell.coinIds.eraseIdx idx)) }
    else s

/-- The "Deposit" button handler at the cache of cell `(i, j)`: when the
player holds at least one coin, append all of the player's coins to the
cache list, clear the player's coins, and store the updated memento;
otherwise do nothing. -/
def depositCoins (s : GameState) (i j : ℚ) : GameState :=
  match (lookupEntry s.cacheStates (cacheKey i j)).bind CacheCell.fromMemento
    with
  | none => s
  | some cell =>
    if s.coins = [] then s
    else
      { s with
        coins := []
        cacheStates := setEntry s.cacheStates (cacheKey cell.i cell.j)
          (createCacheState cell.i cell.j (cell.coinIds ++ s.coins)) }

/-- A collect or deposit interaction, addressed like the popup handlers by
the cell's grid indices (and the coin position for collect). -/
inductive CoinOp : Type where
  | collect : ℚ → ℚ → ℕ → CoinOp
  | deposit : ℚ → ℚ → CoinOp

/-- Apply one collect/deposit interaction. -/
def applyCoinOp (s : GameState) : CoinOp → GameState
  | CoinOp.collect i j idx => collectCoin s i j idx
  | CoinOp.deposit i j => depositCoins s i j

/-- Apply a sequence of collect/deposit interactions in order. -/
def applyCoinOps (s : GameState) (ops : List CoinOp) : GameState :=
  ops.foldl applyCoinOp s

/-- The multiset of coin identifiers stored across all entries of a cache
store. -/
def cacheCoinsSum (cs : List (String × Json)) : Multiset String :=
  (cs.map (fun e => ((mementoCoinIds e.2 : List String) :
    Multiset String))).sum

/-- The multiset of all coin identifiers in the game: the player's coins
together with the coins of every stored cache. -/
def totalCoins (s : GameState) : Multiset String :=
  (s.coins : Multiset String) + cacheCoinsSum s.cacheStates

/-- Well-formedness of a cache store: every entry reachable by lookup is
the memento of a cell whose indices match its key (which is how every
program write — spawn, collect, deposit — stores entries). -/
def WFStore (cs : List (String × Json)) : Prop :=
  ∀ k m, lookupEntry cs k = some m →
    ∃ i j l, k = cacheKey i j ∧ m = createCacheState i j l

/-- States reachable by the program's own mutating operations from the
freshly initialized state. -/
inductive Reachable (rand : ℕ → ℚ) : GameState → Prop where
  | init : Reachable rand initialState
  | visit (s : GameState) (r c : ℚ) : Reachable rand s →
      Reachable rand (visitCell rand s r c).1
  | mapView (s : GameState) : Reachable rand s →
      Reachable rand (updateMapView rand s)
  | move (s : GameState) (dx dy : ℚ) : Reachable rand s →
      Reachable rand (movePlayer rand s dx dy)
  | reset (s : GameState) : Reachable rand s →
      Reachable rand (resetGameState rand s)
  | collect (s : GameState) (i j : ℚ) (idx : ℕ) : Reachable rand s →
      Reachable rand (collectCoin s i j idx)
  | deposit (s : GameState) (i j : ℚ) : Reachable rand s →
      Reachable rand (depositCoins s i j)

/-- `seededRandom(seed)` of `main.ts`: `x = Math.sin(seed) * 10000;
x - Math.floor(x)` (on real numbers; JavaScript computes it in floating
point). -/
noncomputable def seededRandom (seed : ℝ) : ℝ :=
  Real.sin seed * 10000 - ⌊Real.sin seed * 10000⌋

/-- `nextRandom()`: increment the counter `seedValue` and return
`seededRandom(seedValue)`; the pair is (new counter value, return value). -/
noncomputable def nextRandom (seedValue : ℕ) : ℕ × ℝ :=
  (seedValue + 1, seededRandom ((seedValue : ℝ) + 1))

/-- The sequence of values produced by repeated `nextRandom()` calls
starting from counter value `seed`: `randomSequence seed k` is the value of
the `(k+1)`-th call. -/
noncomputable def randomSequence (seed : ℕ) (k : ℕ) : ℝ :=
  (nextRandom (seed + k)).2

/-! ### Helper lemmas -/

/-- `Nat.repr` is injective on single-digit numbers. -/
lemma natRepr_inj_lt10 {a b : ℕ} (ha : a < 10) (hb : b < 10)
    (h : Nat.repr a = Nat.repr b) : a = b := by
  interval_cases a <;> interval_cases b <;> revert h <;> decide

/-- Within one batch (indices below 10), coin identifiers determine the
index. -/
lemma coinId_inj_lt10 (r c : ℚ) {a b : ℕ} (ha : a < 10) (hb : b < 10)
    (h : coinId r c a = coinId r c b) : a = b := by
  apply natRepr_inj_lt10 ha hb
  apply String.ext
  have hd := congrArg String.data h
  simp only [coinId, String.data_append] at hd
  exact List.append_cancel_left hd

/-- C5: `nextRandom` is deterministic in the counter alone: each call
increments the counter by one and returns `seededRandom` of the new counter
value, a value in `[0, 1)` given by the sine-based formula; the first call
after seeding the counter to `1234` evaluates the formula at `1235`, and the
whole output sequence from a given counter value is the pure function
`k ↦ seededRandom (seed + k + 1)`. -/
theorem C5_nextRandom_deterministic (s : ℕ) :
    (nextRandom s).1 = s + 1 ∧
    (nextRandom s).2 = seededRandom ((s : ℝ) + 1) ∧
    0 ≤ (nextRandom s).2 ∧ (nextRandom s).2 < 1 ∧
    (nextRandom 1234).2 = seededRandom 1235 ∧
    ∀ k : ℕ, randomSequence s k = seededRandom ((s : ℝ) + k + 1) := by
  have hfract : ∀ x : ℝ, seededRandom x = Int.fract (Real.sin x * 10000) :=
    fun x => Int.self_sub_floor (Real.sin x * 10000)
  refine ⟨rfl, rfl, ?_, ?_, ?_, fun k => ?_⟩
  · rw [show (nextRandom s).2 = seededRandom ((s : ℝ) + 1) from rfl, hfract]
    exact Int.fract_nonneg _
  · rw [show (nextRandom s).2 = seededRandom ((s : ℝ) + 1) from rfl, hfract]
    exact Int.fract_lt_one _
  · show seededRandom ((1234 : ℝ) + 1) = seededRandom 1235
    norm_num
  · show seededRandom (((s + k : ℕ) : ℝ) + 1) = seededRandom ((s : ℝ) + k + 1)
    push_cast
    rfl

/-- C10: after every `updatePosition` call the movement path is non-empty
and its last element is the current position `getCurrentLatLng()`, i.e.
`(row * TILE_DEGREES, col * TILE_DEGREES)`. -/
theorem C10_path_tracks_position (s : GameState) (dr dc : ℚ) :
    (updatePosition s dr dc).movementPath ≠ [] ∧
    (updatePosition s dr dc).movementPath.getLast? =
      some (getCurrentLatLng (updatePosition s dr dc)) := by
  constructor
  · simp [updatePosition]
  · simp [updatePosition, getCurrentLatLng, List.getLast?_concat]

/-- C6: at a coordinate with no recorded cache state, a cache spawns (the
visit produces a cell) iff the drawn `nextRandom()` value is strictly below
`CACHE_SPAWN_PROBABILITY`; in particular a draw equal to the probability
spawns nothing. -/
theorem C6_spawn_strict_comparison (rand : ℕ → ℚ) (s : GameState) (r c : ℚ)
    (h : lookupEntry s.cacheStates (cacheKey r c) = none) :
    (visitCell rand s r c).2.isSome = true ↔
      rand (s.seedValue + 1) < CACHE_SPAWN_PROBABILITY := by
  unfold visitCell
  by_cases hc : rand (s.seedValue + 1) < CACHE_SPAWN_PROBABILITY <;>
    simp [h, hc]

/-- Witness for C6 at the fresh state with every draw equal to the spawn
probability: the strict comparison fails, so nothing spawns. -/
theorem C6_witness :
    lookupEntry initialState.cacheStates (cacheKey 0 0) = none ∧
    ((visitCell (fun _ => 5 / 100) initialState 0 0).2.isSome = true ↔
      (5 / 100 : ℚ) < CACHE_SPAWN_PROBABILITY) :=
  ⟨rfl, C6_spawn_strict_comparison (fun _ => 5 / 100) initialState 0 0 rfl⟩

/-- C7: the minted batch for a spawned cache has between 1 and 10 coins
inclusive (given the drawn value lies in `[0,1)`), its identifiers are
pairwise distinct, and the identifier at each position is
`coinId r c index`, which spells out the coordinate and the index within
the batch. -/
theorem C7_mint_batch_bounds (r c v : ℚ) (h0 : 0 ≤ v) (h1 : v < 1) :
    1 ≤ (mintCoinIds r c (⌊v * 10 + 1⌋).toNat).length ∧
    (mintCoinIds r c (⌊v * 10 + 1⌋).toNat).length ≤ 10 ∧
    (mintCoinIds r c (⌊v * 10 + 1⌋).toNat).Nodup ∧
    ∀ idx, idx < (mintCoinIds r c (⌊v * 10 + 1⌋).toNat).length →
      (mintCoinIds r c (⌊v * 10 + 1⌋).toNat).getD idx "" = coinId r c idx := by
  have hlen : (mintCoinIds r c (⌊v * 10 + 1⌋).toNat).length =
      (⌊v * 10 + 1⌋).toNat := by
    simp [mintCoinIds]
  have hfl1 : (1 : ℤ) ≤ ⌊v * 10 + 1⌋ := by
    rw [Int.le_floor]
    push_cast
    linarith
  have hfl10 : ⌊v * 10 + 1⌋ ≤ 10 := by
    have : ⌊v * 10 + 1⌋ < 11 := by
      rw [Int.floor_lt]
      push_cast
      linarith
    omega
  have hn1 : 1 ≤ (⌊v * 10 + 1⌋).toNat := by omega
  have hn10 : (⌊v * 10 + 1⌋).toNat ≤ 10 := by omega
  refine ⟨by omega, by omega, ?_, ?_⟩
  · refine (List.nodup_range _).map_on ?_
    intro a ha b hb hab
    rw [List.mem_range] at ha hb
    exact coinId_inj_lt10 r c (by omega) (by omega) hab
  · intro idx hidx
    rw [hlen] at hidx
    rw [mintCoinIds, List.getD_eq_getElem?_getD, List.getElem?_map,
      List.getElem?_range hidx]
    rfl

/-- Witness for C7 with the drawn value `0`: the batch has exactly one coin
`"0:0 serial# 0"`. -/
theorem C7_witness :
    1 ≤ (mintCoinIds 0 0 (⌊(0 : ℚ) * 10 + 1⌋).toNat).length ∧
    (mintCoinIds 0 0 (⌊(0 : ℚ) * 10 + 1⌋).toNat).length ≤ 10 ∧
    (mintCoinIds 0 0 (⌊(0 : ℚ) * 10 + 1⌋).toNat).Nodup ∧
    ∀ idx, idx < (mintCoinIds 0 0 (⌊(0 : ℚ) * 10 + 1⌋).toNat).length →
      (mintCoinIds 0 0 (⌊(0 : ℚ) * 10 + 1⌋).toNat).getD idx "" =
        coinId 0 0 idx :=
  C7_mint_batch_bounds 0 0 0 le_rfl (by norm_num)

/-- Mapping `Json.jstr` over a string list and reading it back as a string
array is the identity. -/
lemma mapM_asStr_map_jstr (l : List String) :
    (l.map Json.jstr).mapM Json.asStr = some l := by
  induction l with
  | nil => rfl
  | cons a t ih =>
    rw [List.map_cons, List.mapM_cons, ih]
    rfl

/-- Decoding an encoded cache state restores exactly the cell that was
encoded (`fromMemento ∘ toMemento = id` at the level of stored fields). -/
lemma fromMemento_createCacheState (i j : ℚ) (l : List String) :
    CacheCell.fromMemento (createCacheState i j l) = some ⟨i, j, l⟩ := by
  show ((l.map Json.jstr).mapM Json.asStr).bind
      (fun coinIds => some (⟨i, j, coinIds⟩ : CacheCell)) = some ⟨i, j, l⟩
  rw [mapM_asStr_map_jstr]
  rfl

/-- Looking up the key of a one-entry store. -/
lemma lookupEntry_single (k : String) (v : Json) :
    lookupEntry [(k, v)] k = some v := by
  simp [lookupEntry]

/-- Looking up a key right after assigning it returns the assigned value. -/
lemma lookupEntry_setEntry_self (l : List (String × Json)) (k : String)
    (v : Json) : lookupEntry (setEntry l k v) k = some v := by
  induction l with
  | nil => simp [setEntry, lookupEntry]
  | cons e t ih =>
    obtain ⟨k1, v1⟩ := e
    by_cases hk : k1 = k <;> simp [setEntry, lookupEntry, hk, ih]

/-- Assigning one key leaves lookups of every other key unchanged. -/
lemma lookupEntry_setEntry_ne (l : List (String × Json)) (k k' : String)
    (v : Json) (h : k' ≠ k) :
    lookupEntry (setEntry l k v) k' = lookupEntry l k' := by
  induction l with
  | nil => simp [setEntry, lookupEntry, Ne.symm h]
  | cons e t ih =>
    obtain ⟨k1, v1⟩ := e
    by_cases hk : k1 = k
    · subst hk
      simp [setEntry, lookupEntry, Ne.symm h]
    · simp [setEntry, lookupEntry, hk, ih]

/-- A visit to a coordinate whose cache state is already recorded returns
the decoded recorded cell and leaves the state (in particular the
generator counter) unchanged. -/
lemma visitCell_recorded (rand : ℕ → ℚ) (s : GameState) (r c i j : ℚ)
    (l : List String)
    (h : lookupEntry s.cacheStates (cacheKey r c) =
      some (createCacheState i j l)) :
    visitCell rand s r c = (s, some ⟨i, j, l⟩) := by
  unfold visitCell
  simp [h, fromMemento_createCacheState]

/-- One replay step, written field by field: the new position is the
replayed entry divided by the tile size, and the entry pushed back onto the
path is the replayed entry itself (`(x/T)*T = x`). -/
lemma replayStep_eq (p : GameState) (x : ℚ × ℚ) :
    replayStep p x =
      ⟨p.seedValue, x.1 / TILE_DEGREES, x.2 / TILE_DEGREES,
        p.movementPath ++ [x], p.coins, p.cacheStates⟩ := by
  have hT : TILE_DEGREES ≠ 0 := by norm_num [TILE_DEGREES]
  have hrow : p.row + (x.1 / TILE_DEGREES - p.row) = x.1 / TILE_DEGREES := by
    ring
  have hcol : p.col + (x.2 / TILE_DEGREES - p.col) = x.2 / TILE_DEGREES := by
    ring
  simp only [replayStep, updatePosition, getCurrentLatLng, hrow, hcol,
    div_mul_cancel₀ _ hT]

/-- The movement-path replay never touches the coin list. -/
lemma foldl_replayStep_coins (l : List (ℚ × ℚ)) (p : GameState) :
    (l.foldl replayStep p).coins = p.coins := by
  induction l generalizing p with
  | nil => rfl
  | cons x t ih => rw [List.foldl_cons, ih, replayStep_eq]

/-- The movement-path replay never touches the cache store. -/
lemma foldl_replayStep_cacheStates (l : List (ℚ × ℚ)) (p : GameState) :
    (l.foldl replayStep p).cacheStates = p.cacheStates := by
  induction l generalizing p with
  | nil => rfl
  | cons x t ih => rw [List.foldl_cons, ih, replayStep_eq]

/-- The movement-path replay never touches the generator counter. -/
lemma foldl_replayStep_seedValue (l : List (ℚ × ℚ)) (p : GameState) :
    (l.foldl replayStep p).seedValue = p.seedValue := by
  induction l generalizing p with
  | nil => rfl
  | cons x t ih => rw [List.foldl_cons, ih, replayStep_eq]

/-- The movement-path replay appends the replayed entries verbatim to the
existing path. -/
lemma foldl_replayStep_path (l : List (ℚ × ℚ)) (p : GameState) :
    (l.foldl replayStep p).movementPath = p.movementPath ++ l := by
  induction l generalizing p with
  | nil => simp
  | cons x t ih =>
    rw [List.foldl_cons, ih, replayStep_eq]
    simp

/-- After the replay, the row is the first component of the last replayed
entry divided by the tile size (or unchanged when nothing was replayed). -/
lemma foldl_replayStep_row (l : List (ℚ × ℚ)) (p : GameState) :
    (l.foldl replayStep p).row =
      (l.getLast?.map (fun q => q.1 / TILE_DEGREES)).getD p.row := by
  induction l generalizing p with
  | nil => rfl
  | cons x t ih =>
    rw [List.foldl_cons, ih, replayStep_eq]
    cases t with
    | nil => rfl
    | cons y t2 =>
      rw [List.getLast?_cons_cons]
      cases h : (y :: t2).getLast? with
      | none => simp at h
      | some z => simp [h]

/-- After the replay, the column is the second component of the last
replayed entry divided by the tile size. -/
lemma foldl_replayStep_col (l : List (ℚ × ℚ)) (p : GameState) :
    (l.foldl replayStep p).col =
      (l.getLast?.map (fun q => q.2 / TILE_DEGREES)).getD p.col := by
  induction l generalizing p with
  | nil => rfl
  | cons x t ih =>
    rw [List.foldl_cons, ih, replayStep_eq]
    cases t with
    | nil => rfl
    | cons y t2 =>
      rw [List.getLast?_cons_cons]
      cases h : (y :: t2).getLast? with
      | none => simp at h
      | some z => simp [h]

/-- C8: the load path tolerates partial or missing persisted data: a
missing or undecodable snapshot leaves the fresh default state untouched,
missing `coins`/`cacheStates` fields fall back to the empty list and empty
store, and a missing `movementPath` leaves the player at the starting
coordinate with the single starting path entry. -/
theorem C8_restore_tolerates_missing_fields (snap : SnapshotJson) :
    loadGameData none initialState = initialState ∧
    (loadGameData (some snap) initialState).coins = snap.coins.getD [] ∧
    (loadGameData (some snap) initialState).cacheStates =
      snap.cacheStates.getD [] ∧
    (snap.movementPath = none →
      (loadGameData (some snap) initialState).row = initialRow ∧
      (loadGameData (some snap) initialState).col = initialCol ∧
      (loadGameData (some snap) initialState).movementPath =
        [(oakesLat, oakesLng)]) := by
  refine ⟨rfl, ?_, rfl, fun hpath => ⟨?_, ?_, ?_⟩⟩
  · simp [loadGameData, foldl_replayStep_coins]
  · simp [loadGameData, foldl_replayStep_row, hpath, initialState]
  · simp [loadGameData, foldl_replayStep_col, hpath, initialState]
  · simp [loadGameData, foldl_replayStep_path, hpath, initialState]

/-- Witness for C8 at the all-fields-missing snapshot. -/
theorem C8_witness :
    (loadGameData (some ⟨none, none, none, none, none⟩)
      initialState).coins = [] ∧
    (loadGameData (some ⟨none, none, none, none, none⟩)
      initialState).cacheStates = [] ∧
    (loadGameData (some ⟨none, none, none, none, none⟩)
      initialState).row = initialRow ∧
    (loadGameData (some ⟨none, none, none, none, none⟩)
      initialState).movementPath = [(oakesLat, oakesLng)] :=
  ⟨(C8_restore_tolerates_missing_fields ⟨none, none, none, none, none⟩).2.1,
   (C8_restore_tolerates_missing_fields ⟨none, none, none, none, none⟩).2.2.1,
   ((C8_restore_tolerates_missing_fields
      ⟨none, none, none, none, none⟩).2.2.2 rfl).1,
   ((C8_restore_tolerates_missing_fields
      ⟨none, none, none, none, none⟩).2.2.2 rfl).2.2⟩

/-- C9: deposit is all-or-nothing: at a cache whose recorded contents are
`l`, when the player holds at least one coin the deposit appends every
player coin, in order, to the cache contents and empties the inventory;
when the player holds no coins the deposit changes nothing. -/
theorem C9_deposit_all_or_nothing (s : GameState) (i j i' j' : ℚ)
    (l : List String)
    (h : lookupEntry s.cacheStates (cacheKey i j) =
      some (createCacheState i' j' l)) :
    (s.coins = [] → depositCoins s i j = s) ∧
    (s.coins ≠ [] → depositCoins s i j =
      { s with
        coins := []
        cacheStates := setEntry s.cacheStates (cacheKey i' j')
          (createCacheState i' j' (l ++ s.coins)) }) := by
  have hd : (lookupEntry s.cacheStates (cacheKey i j)).bind
      CacheCell.fromMemento = some ⟨i', j', l⟩ := by
    rw [h, Option.some_bind, fromMemento_createCacheState]
  unfold depositCoins
  rw [hd]
  constructor
  · intro hc
    simp [hc]
  · intro hc
    simp [hc]

/-- Witness for C9: depositing two held coins into a one-coin cache. -/
theorem C9_witness :
    depositCoins
      { seedValue := 1234, row := 0, col := 0, movementPath := [],
        coins := ["a", "b"],
        cacheStates := [(cacheKey 0 0, createCacheState 0 0 ["z"])] } 0 0 =
    { seedValue := 1234, row := 0, col := 0, movementPath := [],
      coins := [],
      cacheStates := setEntry [(cacheKey 0 0, createCacheState 0 0 ["z"])]
        (cacheKey 0 0) (createCacheState 0 0 (["z"] ++ ["a", "b"])) } :=
  (C9_deposit_all_or_nothing
    { seedValue := 1234, row := 0, col := 0, movementPath := [],
      coins := ["a", "b"],
      cacheStates := [(cacheKey 0 0, createCacheState 0 0 ["z"])] }
    0 0 0 0 ["z"] (lookupEntry_single _ _)).2 (by simp)

/-- C1 counterexample: with draws that miss the spawn probability on the
first visit and hit it on the second, revisiting the same unseen coordinate
advances the generator counter again and returns a different result — the
first visit's "no cache" decision is not remembered. -/
theorem C1_counterexample :
    ((visitCell (fun n => if n = 1236 then 0 else 1 / 2)
        ((visitCell (fun n => if n = 1236 then 0 else 1 / 2)
          initialState 0 0).1) 0 0).1.seedValue ≠
      (visitCell (fun n => if n = 1236 then 0 else 1 / 2)
        initialState 0 0).1.seedValue) ∧
    ((visitCell (fun n => if n = 1236 then 0 else 1 / 2)
        ((visitCell (fun n => if n = 1236 then 0 else 1 / 2)
          initialState 0 0).1) 0 0).2 ≠
      (visitCell (fun n => if n = 1236 then 0 else 1 / 2)
        initialState 0 0).2) := by
  with_unfolding_all decide

/-- C1 as amended: a second lookup is stable only for coordinates whose
cache state was *recorded* — when the key is present the visit returns the
stored cell without advancing the counter, and a visit that spawns a cache
makes every subsequent visit of that coordinate return the same cell with
no further counter advance.  A "no cache" spawn decision is not recorded,
so for such coordinates the roll is re-performed (see the
counterexample). -/
theorem C1_visit_idempotent_once_recorded (rand : ℕ → ℚ) (s : GameState)
    (r c : ℚ) :
    (∀ i j l, lookupEntry s.cacheStates (cacheKey r c) =
        some (createCacheState i j l) →
      visitCell rand s r c = (s, some ⟨i, j, l⟩)) ∧
    (lookupEntry s.cacheStates (cacheKey r c) = none →
      rand (s.seedValue + 1) < CACHE_SPAWN_PROBABILITY →
      visitCell rand (visitCell rand s r c).1 r c = visitCell rand s r c) := by
  constructor
  · intro i j l h
    exact visitCell_recorded rand s r c i j l h
  · intro hnone hlt
    have hvisit : visitCell rand s r c =
        ({ s with
            seedValue := s.seedValue + 1 + 1
            cacheStates := setEntry s.cacheStates (cacheKey r c)
              (createCacheState r c (mintCoinIds r c
                (⌊rand (s.seedValue + 1 + 1) * 10 + 1⌋).toNat)) },
         some ⟨r, c, mintCoinIds r c
            (⌊rand (s.seedValue + 1 + 1) * 10 + 1⌋).toNat⟩) := by
      unfold visitCell
      simp [hnone, hlt, CacheCell.toMemento]
    rw [hvisit]
    exact visitCell_recorded rand _ r c r c _
      (lookupEntry_setEntry_self s.cacheStates (cacheKey r c) _)

/-- Witness for C1 (amended): with every draw below the probability, the
second visit of a fresh coordinate repeats the first visit's result. -/
theorem C1_witness :
    visitCell (fun _ => 0)
        ((visitCell (fun _ => 0) initialState 0 0).1) 0 0 =
      visitCell (fun _ => 0) initialState 0 0 :=
  (C1_visit_idempotent_once_recorded (fun _ => 0) initialState 0 0).2 rfl
    (by show (0 : ℚ) < CACHE_SPAWN_PROBABILITY; norm_num [CACHE_SPAWN_PROBABILITY])

/-- The coin list recorded in an encoded cache state. -/
lemma mementoCoinIds_createCacheState (i j : ℚ) (l : List String) :
    mementoCoinIds (createCacheState i j l) = l := by
  simp [mementoCoinIds, fromMemento_createCacheState]

/-- Removing the element at position `idx` and re-adding it recovers the
original list as a multiset. -/
lemma cons_eraseIdx_coe {α : Type} (l : List α) (idx : ℕ)
    (h : idx < l.length) :
    l.get ⟨idx, h⟩ ::ₘ ((l.eraseIdx idx : List α) : Multiset α) =
      (l : Multiset α) := by
  have h1 : l = l.take idx ++ l[idx] :: l.drop (idx + 1) := by
    conv_lhs =>
      rw [← List.take_append_drop idx l, List.drop_eq_getElem_cons h]
  have hp : l.Perm (l[idx] :: l.eraseIdx idx) := by
    rw [List.eraseIdx_eq_take_drop_succ]
    conv_lhs => rw [h1]
    exact List.perm_middle
  have := Multiset.coe_eq_coe.mpr hp.symm
  simpa using this

/-- Replacing the entry found at a key changes the stored-coin sum by
exactly swapping that entry's coin list for the new one. -/
lemma cacheCoinsSum_setEntry (cs : List (String × Json)) (k : String)
    (m v : Json) (h : lookupEntry cs k = some m) :
    cacheCoinsSum (setEntry cs k v) +
        ((mementoCoinIds m : List String) : Multiset String) =
      cacheCoinsSum cs +
        ((mementoCoinIds v : List String) : Multiset String) := by
  induction cs with
  | nil => simp [lookupEntry] at h
  | cons e t ih =>
    obtain ⟨k1, v1⟩ := e
    by_cases hk : k1 = k
    · subst hk
      rw [lookupEntry, if_pos rfl, Option.some.injEq] at h
      subst h
      rw [setEntry, if_pos rfl]
      simp only [cacheCoinsSum, List.map_cons, List.sum_cons]
      abel
    · rw [lookupEntry, if_neg hk] at h
      rw [setEntry, if_neg hk]
      simp only [cacheCoinsSum, List.map_cons, List.sum_cons]
      have := ih h
      simp only [cacheCoinsSum] at this
      rw [add_assoc, this]
      abel

/-- Writing a well-formed entry keeps the store well-formed. -/
lemma WFStore_setEntry {cs : List (String × Json)} (h : WFStore cs)
    (i j : ℚ) (l : List String) :
    WFStore (setEntry cs (cacheKey i j) (createCacheState i j l)) := by
  intro k m hk
  by_cases hke : k = cacheKey i j
  · subst hke
    rw [lookupEntry_setEntry_self] at hk
    injection hk with hk2
    exact ⟨i, j, l, rfl, hk2.symm⟩
  · rw [lookupEntry_setEntry_ne _ _ _ _ hke] at hk
    exact h k m hk

/-- The empty store is well-formed. -/
lemma WFStore_nil : WFStore [] := by
  intro k m hk
  simp [lookupEntry] at hk

/-- A collect interaction conserves the total coin multiset and keeps the
store well-formed. -/
lemma collectCoin_spec (s : GameState) (i j : ℚ) (idx : ℕ)
    (hwf : WFStore s.cacheStates) :
    totalCoins (collectCoin s i j idx) = totalCoins s ∧
    WFStore (collectCoin s i j idx).cacheStates := by
  cases hl : (lookupEntry s.cacheStates (cacheKey i j)).bind
      CacheCell.fromMemento with
  | none =>
    unfold collectCoin
    rw [hl]
    exact ⟨rfl, hwf⟩
  | some cell =>
    obtain ⟨m, hm, hcell⟩ := Option.bind_eq_some.mp hl
    obtain ⟨i1, j1, l, hk, hmem⟩ := hwf _ _ hm
    subst hmem
    rw [fromMemento_createCacheState, Option.some.injEq] at hcell
    subst hcell
    rw [hk] at hm
    unfold collectCoin
    rw [hl]
    by_cases hidx : idx < l.length
    · simp only [dif_pos hidx]
      have hsum := cacheCoinsSum_setEntry s.cacheStates (cacheKey i1 j1)
        (createCacheState i1 j1 l)
        (createCacheState i1 j1 (l.eraseIdx idx)) hm
      rw [mementoCoinIds_createCacheState, mementoCoinIds_createCacheState]
        at hsum
      have herase := cons_eraseIdx_coe l idx hidx
      constructor
      · show ((s.coins ++ [l.get ⟨idx, hidx⟩] : List String) :
            Multiset String) + cacheCoinsSum (setEntry s.cacheStates
              (cacheKey i1 j1)
              (createCacheState i1 j1 (l.eraseIdx idx))) =
          (s.coins : Multiset String) + cacheCoinsSum s.cacheStates
        apply add_right_cancel (b := ((l : List String) : Multiset String))
        rw [add_assoc, hsum, ← herase, ← Multiset.singleton_add]
        have hcoe : ((s.coins ++ [l.get ⟨idx, hidx⟩] : List String) :
            Multiset String) =
            (s.coins : Multiset String) + {l.get ⟨idx, hidx⟩} := by
          simp only [← Multiset.coe_singleton, ← Multiset.coe_add]
        rw [hcoe]
        abel
      · exact WFStore_setEntry hwf i1 j1 (l.eraseIdx idx)
    · simp only [dif_neg hidx]
      exact ⟨trivial, hwf⟩

/-- A deposit interaction conserves the total coin multiset and keeps the
store well-formed. -/
lemma depositCoins_spec (s : GameState) (i j : ℚ)
    (hwf : WFStore s.cacheStates) :
    totalCoins (depositCoins s i j) = totalCoins s ∧
    WFStore (depositCoins s i j).cacheStates := by
  cases hl : (lookupEntry s.cacheStates (cacheKey i j)).bind
      CacheCell.fromMemento with
  | none =>
    unfold depositCoins
    rw [hl]
    exact ⟨rfl, hwf⟩
  | some cell =>
    obtain ⟨m, hm, hcell⟩ := Option.bind_eq_some.mp hl
    obtain ⟨i1, j1, l, hk, hmem⟩ := hwf _ _ hm
    subst hmem
    rw [fromMemento_createCacheState, Option.some.injEq] at hcell
    subst hcell
    rw [hk] at hm
    unfold depositCoins
    rw [hl]
    by_cases hcoins : s.coins = []
    · simp only [if_pos hcoins]
      exact ⟨trivial, hwf⟩
    · simp only [if_neg hcoins]
      have hsum := cacheCoinsSum_setEntry s.cacheStates (cacheKey i1 j1)
        (createCacheState i1 j1 l)
        (createCacheState i1 j1 (l ++ s.coins)) hm
      rw [mementoCoinIds_createCacheState, mementoCoinIds_createCacheState]
        at hsum
      constructor
      · show (([] : List String) : Multiset String) +
          cacheCoinsSum (setEntry s.cacheStates (cacheKey i1 j1)
            (createCacheState i1 j1 (l ++ s.coins))) =
          (s.coins : Multiset String) + cacheCoinsSum s.cacheStates
        apply add_right_cancel (b := ((l : List String) : Multiset String))
        rw [add_assoc, hsum]
        have hcoe : ((l ++ s.coins : List String) : Multiset String) =
            (l : Multiset String) + (s.coins : Multiset String) := by
          simp only [← Multiset.coe_add]
        rw [hcoe, Multiset.coe_nil, zero_add]
        abel
      · exact WFStore_setEntry hwf i1 j1 (l ++ s.coins)

/-- A cell visit keeps the store well-formed: it writes at most one new
entry, keyed and encoded from the same cell. -/
lemma visitCell_WFStore (rand : ℕ → ℚ) (s : GameState) (r c : ℚ)
    (h : WFStore s.cacheStates) :
    WFStore (visitCell rand s r c).1.cacheStates := by
  unfold visitCell
  cases hl : lookupEntry s.cacheStates (cacheKey r c) with
  | some m =>
    simp only [hl]
    exact h
  | none =>
    by_cases hc : rand (s.seedValue + 1) < CACHE_SPAWN_PROBABILITY
    · simp only [hl, if_pos hc, CacheCell.toMemento]
      exact WFStore_setEntry h r c _
    · simp only [hl, if_neg hc]
      exact h

/-- Folding a store-preserving step over a list preserves the store
invariant. -/
lemma foldl_WFStore_preserve {α : Type} (f : GameState → α → GameState)
    (hf : ∀ s a, WFStore s.cacheStates → WFStore (f s a).cacheStates)
    (l : List α) (s : GameState) (h : WFStore s.cacheStates) :
    WFStore ((l.foldl f s).cacheStates) := by
  induction l generalizing s with
  | nil => exact h
  | cons a t ih => exact ih (f s a) (hf s a h)

/-- A whole map-view refresh keeps the store well-formed. -/
lemma updateMapView_WFStore (rand : ℕ → ℚ) (s : GameState)
    (h : WFStore s.cacheStates) :
    WFStore (updateMapView rand s).cacheStates := by
  unfold updateMapView
  refine foldl_WFStore_preserve _ ?_ _ _ h
  intro s1 rowOffset h1
  refine foldl_WFStore_preserve _ ?_ _ _ h1
  intro s2 colOffset h2
  exact visitCell_WFStore rand s2 _ _ h2

/-- Every state the program can reach has a well-formed cache store. -/
lemma Reachable_WFStore {rand : ℕ → ℚ} {s : GameState}
    (h : Reachable rand s) : WFStore s.cacheStates := by
  induction h with
  | init => exact WFStore_nil
  | visit s r c _ ih => exact visitCell_WFStore rand s r c ih
  | mapView s _ ih => exact updateMapView_WFStore rand s ih
  | move s dx dy _ ih =>
    exact updateMapView_WFStore rand _ ih
  | reset s _ ih =>
    exact updateMapView_WFStore rand _ WFStore_nil
  | collect s i j idx _ ih => exact (collectCoin_spec s i j idx ih).2
  | deposit s i j _ ih => exact (depositCoins_spec s i j ih).2

/-- C2: coin conservation — over any sequence of collect/deposit
interactions applied to a reachable state, the multiset of all coin
identifiers (player coins together with all cache coins) is unchanged:
collect moves one coin id from a cache to the player, deposit moves the
player's coin ids into a cache, and neither creates or destroys ids. -/
theorem C2_coin_conservation (rand : ℕ → ℚ) (ops : List CoinOp)
    (s : GameState) (h : Reachable rand s) :
    totalCoins (applyCoinOps s ops) = totalCoins s := by
  have hwf := Reachable_WFStore h
  clear h
  induction ops generalizing s with
  | nil => rfl
  | cons op t ih =>
    have hstep : totalCoins (applyCoinOp s op) = totalCoins s ∧
        WFStore (applyCoinOp s op).cacheStates := by
      cases op with
      | collect i j idx => exact collectCoin_spec s i j idx hwf
      | deposit i j => exact depositCoins_spec s i j hwf
    show totalCoins (applyCoinOps (applyCoinOp s op) t) = totalCoins s
    rw [ih (applyCoinOp s op) hstep.2, hstep.1]

/-- Witness for C2: a collect-then-deposit sequence from the fresh state
(which holds no caches, so both interactions are no-ops on an absent
cache) conserves the total coin multiset. -/
theorem C2_witness :
    totalCoins (applyCoinOps initialState
      [CoinOp.collect 0 0 0, CoinOp.deposit 0 0]) = totalCoins initialState :=
  C2_coin_conservation (fun _ => 0)
    [CoinOp.collect 0 0 0, CoinOp.deposit 0 0] initialState Reachable.init

/-- C3 counterexample: restoring the snapshot saved from the pristine
initial state does not reproduce its movement path — the load replay
appends every saved entry to the constructor's starting entry, so the
starting coordinate is duplicated. -/
theorem C3_counterexample :
    (loadGameData (some (saveGameData initialState))
        initialState).movementPath ≠ initialState.movementPath := by
  intro h
  have hlen := congrArg List.length h
  revert hlen
  with_unfolding_all decide

/-- C3 as amended: cell mementos round-trip exactly
(`fromMemento (toMemento cell)` restores `i`, `j`, `coinIds`), and a
restore of a saved game reproduces the cache contents per coordinate and
the player's coins exactly; the restored movement path, however, is the
saved path with the starting coordinate prepended, and the player's
coordinate is recovered (from the path replay, not the saved `row`/`col`
fields) exactly when the saved path ends at the player's current grid
position. -/
theorem C3_roundtrip_amended (cell : CacheCell) (s : GameState)
    (hlast : s.movementPath.getLast? =
      some (s.row * TILE_DEGREES, s.col * TILE_DEGREES)) :
    CacheCell.fromMemento cell.toMemento = some cell ∧
    (loadGameData (some (saveGameData s)) initialState).coins = s.coins ∧
    (loadGameData (some (saveGameData s)) initialState).cacheStates =
      s.cacheStates ∧
    (loadGameData (some (saveGameData s)) initialState).movementPath =
      (oakesLat, oakesLng) :: s.movementPath ∧
    (loadGameData (some (saveGameData s)) initialState).row = s.row ∧
    (loadGameData (some (saveGameData s)) initialState).col = s.col := by
  have hT : TILE_DEGREES ≠ 0 := by norm_num [TILE_DEGREES]
  refine ⟨?_, ?_, rfl, ?_, ?_, ?_⟩
  · exact fromMemento_createCacheState cell.i cell.j cell.coinIds
  · simp [loadGameData, saveGameData, foldl_replayStep_coins]
  · simp [loadGameData, saveGameData, foldl_replayStep_path, initialState]
  · simp [loadGameData, saveGameData, foldl_replayStep_row, hlast,
      mul_div_cancel_right₀ _ hT]
  · simp [loadGameData, saveGameData, foldl_replayStep_col, hlast,
      mul_div_cancel_right₀ _ hT]

/-- Witness for C3 (amended) at a state whose saved path ends at the
player's grid position. -/
theorem C3_witness :
    CacheCell.fromMemento (CacheCell.toMemento ⟨3, 4, ["x"]⟩) =
      some ⟨3, 4, ["x"]⟩ ∧
    (loadGameData (some (saveGameData
        ⟨1240, 1, 2, [(1 / 10000, 2 / 10000)], ["c"], []⟩))
      initialState).coins = ["c"] ∧
    (loadGameData (some (saveGameData
        ⟨1240, 1, 2, [(1 / 10000, 2 / 10000)], ["c"], []⟩))
      initialState).cacheStates = [] ∧
    (loadGameData (some (saveGameData
        ⟨1240, 1, 2, [(1 / 10000, 2 / 10000)], ["c"], []⟩))
      initialState).movementPath =
      (oakesLat, oakesLng) :: [(1 / 10000, 2 / 10000)] ∧
    (loadGameData (some (saveGameData
        ⟨1240, 1, 2, [(1 / 10000, 2 / 10000)], ["c"], []⟩))
      initialState).row = 1 ∧
    (loadGameData (some (saveGameData
        ⟨1240, 1, 2, [(1 / 10000, 2 / 10000)], ["c"], []⟩))
      initialState).col = 2 :=
  C3_roundtrip_amended ⟨3, 4, ["x"]⟩
    ⟨1240, 1, 2, [(1 / 10000, 2 / 10000)], ["c"], []⟩
    (by norm_num [TILE_DEGREES])

/-- A cell visit never changes the player's position, path or coins. -/
lemma visitCell_player_fields (rand : ℕ → ℚ) (s : GameState) (r c : ℚ) :
    ((visitCell rand s r c).1.row, (visitCell rand s r c).1.col,
      (visitCell rand s r c).1.movementPath,
      (visitCell rand s r c).1.coins) =
    (s.row, s.col, s.movementPath, s.coins) := by
  unfold visitCell
  cases hl : lookupEntry s.cacheStates (cacheKey r c) with
  | some m => simp [hl]
  | none =>
    by_cases hc : rand (s.seedValue + 1) < CACHE_SPAWN_PROBABILITY <;>
      simp [hl, hc]

/-- Folding player-preserving steps preserves the player fields. -/
lemma foldl_player_fields {α : Type} (f : GameState → α → GameState)
    (hf : ∀ s a, ((f s a).row, (f s a).col, (f s a).movementPath,
      (f s a).coins) = (s.row, s.col, s.movementPath, s.coins))
    (l : List α) (s : GameState) :
    ((l.foldl f s).row, (l.foldl f s).col, (l.foldl f s).movementPath,
      (l.foldl f s).coins) = (s.row, s.col, s.movementPath, s.coins) := by
  induction l generalizing s with
  | nil => rfl
  | cons a t ih => rw [List.foldl_cons, ih (f s a), hf]

/-- A map-view refresh never changes the player's position, path or
coins. -/
lemma updateMapView_player_fields (rand : ℕ → ℚ) (s : GameState) :
    ((updateMapView rand s).row, (updateMapView rand s).col,
      (updateMapView rand s).movementPath, (updateMapView rand s).coins) =
    (s.row, s.col, s.movementPath, s.coins) := by
  unfold updateMapView
  refine foldl_player_fields _ ?_ _ _
  intro s1 rowOffset
  refine foldl_player_fields _ ?_ _ _
  intro s2 colOffset
  exact visitCell_player_fields rand s2 _ _

set_option maxRecDepth 100000 in
/-- C4 counterexample: the generator counter survives a reset, so the
repopulation after a reset differs from a fresh session with the same
seed: with draws that spawn only at counter position 1235, the fresh
session's startup spawns a cache at the first visited cell, while the
post-reset repopulation (counter already past 1235) spawns nothing
there. -/
theorem C4_counterexample :
    (lookupEntry
      (updateMapView (fun n => if n = 1235 then 0 else 1 / 2)
        initialState).cacheStates
      (cacheKey (initialRow - 5) (initialCol - 5))).isSome = true ∧
    (lookupEntry
      (resetGameState (fun n => if n = 1235 then 0 else 1 / 2)
        (updateMapView (fun n => if n = 1235 then 0 else 1 / 2)
          initialState)).cacheStates
      (cacheKey (initialRow - 5) (initialCol - 5))).isSome = false := by
  with_unfolding_all decide

/-- C4 as amended: a confirmed reset puts the player back at the single
starting coordinate with no coins and the single-entry movement history,
and clears the cache state before repopulating it; but the generator
counter is not reset, so the whole reset is equivalent to a fresh session
whose counter starts at the reset-time counter value — it repopulates
identically to a fresh session only when that counter value matches. -/
theorem C4_reset_amended (rand : ℕ → ℚ) (s : GameState) :
    resetGameState rand s =
      updateMapView rand { initialState with seedValue := s.seedValue } ∧
    (resetGameState rand s).row = initialRow ∧
    (resetGameState rand s).col = initialCol ∧
    (resetGameState rand s).coins = [] ∧
    (resetGameState rand s).movementPath = [(oakesLat, oakesLng)] := by
  have hfields := updateMapView_player_fields rand
    { s with
      row := initialRow
      col := initialCol
      movementPath := [(oakesLat, oakesLng)]
      coins := []
      cacheStates := [] }
  rw [Prod.mk.injEq, Prod.mk.injEq, Prod.mk.injEq] at hfields
  exact ⟨rfl, hfields.1, hfields.2.1, hfields.2.2.2, hfields.2.2.1⟩
